import Mathlib

/-!
Shallow embedding of the IQ stanza codec of `iq.go` (package xmpp).

The Go code reads and writes `encoding/xml` token streams.  We embed the
token stream as `List Token`, where a token is a start element (resolved
qualified name plus attribute list), an end element, or character data
carrying the logical (unescaped) string, exactly as Go's `xml.Decoder`
delivers tokens and `xml.Encoder` accepts them.  Decoders return
`Option (result × List Token)`: `none` models a propagated stream error,
and the returned list is the unconsumed remainder of the stream, which is
how `Decoder.DecodeElement` leaves the decoder positioned after the
element's end tag.  Recursive loops take an explicit fuel argument; the
public entry points supply `tokens.length + 1`, which is enough fuel for
every terminating run because each loop iteration consumes at least one
token.
-/

namespace Xmpp

/-- Qualified XML name, Go's `xml.Name`: namespace URI and local name.
Prefixes are already resolved by Go's decoder and play no role. -/
structure XmlName where
  Space : String
  Local : String
deriving DecidableEq, Repr

/-- Go's `xml.Attr`: attribute qualified name and value.  For a default
namespace declaration `xmlns="u"` Go delivers `Name = (Space "", Local "xmlns")`;
for a prefixed declaration `xmlns:p="u"` it delivers `Name = (Space "xmlns", Local p)`. -/
structure Attr where
  Name : XmlName
  Value : String
deriving DecidableEq, Repr

/-- One token of Go's `encoding/xml` stream, restricted to the kinds the
code in `iq.go` produces or inspects (`xml.StartElement`, `xml.EndElement`,
`xml.CharData`).  `charData` carries the logical string: the decoder hands
tokens with entities already unescaped, and the encoder escapes on output. -/
inductive Token where
  | startElement (name : XmlName) (attrs : List Attr)
  | endElement (name : XmlName)
  | charData (s : String)
deriving DecidableEq, Repr

/-- Character escaping performed by Go's `xml` encoder when writing
character data and attribute values (`xml.EscapeText`).  Lean's `Char` is
always a valid scalar value, so the invalid-rune replacement path of the Go
escaper does not arise in the model. -/
def escChar (c : Char) : String :=
  if c = Char.ofNat 34 then "&#34;"
  else if c = Char.ofNat 39 then "&#39;"
  else if c = Char.ofNat 38 then "&amp;"
  else if c = Char.ofNat 60 then "&lt;"
  else if c = Char.ofNat 62 then "&gt;"
  else if c = Char.ofNat 9 then "&#x9;"
  else if c = Char.ofNat 10 then "&#xA;"
  else if c = Char.ofNat 13 then "&#xD;"
  else String.singleton c

/-- Escape a whole string as Go's encoder writes character data. -/
def escapeStr (s : String) : String :=
  s.toList.foldl (fun acc c => acc ++ escChar c) ""

/-- Serialized form of a qualified name, standing in for the raw bytes of
the original document when a name is re-rendered inside an `innerxml`
capture. -/
def renderName (nm : XmlName) : String :=
  if nm.Space = "" then nm.Local else nm.Space ++ ":" ++ nm.Local

/-- Serialized form of one attribute inside an `innerxml` capture. -/
def renderAttr (a : Attr) : String :=
  " " ++ renderName a.Name ++ "=\"" ++ escapeStr a.Value ++ "\""

/-- Serialized form of one token inside an `innerxml` capture. -/
def renderToken : Token → String
  | Token.startElement nm attrs => "<" ++ renderName nm ++ (attrs.map renderAttr).foldl (· ++ ·) "" ++ ">"
  | Token.endElement nm => "</" ++ renderName nm ++ ">"
  | Token.charData s => escapeStr s

/-- Raw text of a token sequence.  Go's `xml:",innerxml"` fields receive
the verbatim bytes of the element's interior; in the token model we stand
those bytes in by re-rendering the interior tokens, with character data in
its escaped (on-the-wire) form. -/
def renderTokens : List Token → String
  | [] => ""
  | t :: ts => renderToken t ++ renderTokens ts

/-- Decimal digit character, `'0' + d`. -/
def digitChar (d : Nat) : Char := Char.ofNat (48 + d)

/-- Decimal digit list of a natural number, most significant digit first,
as produced by Go's `strconv.Itoa` for a non-negative value. -/
def natDigits (n : Nat) : List Char :=
  if _h : n < 10 then [digitChar n]
  else natDigits (n / 10) ++ [digitChar (n % 10)]
termination_by n
decreasing_by
  exact Nat.div_lt_self (by omega) (by omega)

/-- Go's `strconv.Itoa`: decimal representation of an integer, with a
leading minus sign for negative values. -/
def itoa (i : Int) : String :=
  if i < 0 then "-" ++ String.mk (natDigits i.natAbs)
  else String.mk (natDigits i.toNat)

/-- Value of one decimal digit character, `none` on a non-digit, as checked
character by character by Go's `strconv.Atoi`. -/
def digitVal? (c : Char) : Option Nat :=
  if 48 ≤ c.toNat ∧ c.toNat ≤ 57 then some (c.toNat - 48) else none

/-- Accumulating digit parser of `strconv.Atoi`: `n = n*10 + d` per digit,
failing on the first non-digit character. -/
def digitsValAux (acc : Nat) : List Char → Option Nat
  | [] => some acc
  | c :: cs =>
    match digitVal? c with
    | some d => digitsValAux (acc * 10 + d) cs
    | none => none

/-- Digit-string value: fails on the empty string and on any non-digit. -/
def digitsVal? (cs : List Char) : Option Nat :=
  if cs.isEmpty then none else digitsValAux 0 cs

/-- Go's `strconv.Atoi` on the values this code feeds it: an optional
leading `+` or `-` sign followed by at least one decimal digit; anything
else is a parse error (`none`).  (The 64-bit range check of the real
`Atoi` is not modelled; `Code` is modelled as an unbounded `Int`.) -/
def atoi? (s : String) : Option Int :=
  match s.toList with
  | [] => none
  | c :: cs =>
    if c = '+' then (digitsVal? cs).map Int.ofNat
    else if c = '-' then (digitsVal? cs).map (fun n => -(Int.ofNat n))
    else (digitsVal? (c :: cs)).map Int.ofNat

/-- Generic XML tree node, Go's `xmpp.Node`: qualified name, attributes
(the `xml:"-"` field filled only by the custom unmarshaler), raw inner
text (`xml:",innerxml"`), and child nodes in document order (`xml:",any"`). -/
structure Node where
  XMLName : XmlName
  Attrs : List Attr
  Content : String
  Nodes : List Node

/-- Attribute filter of `Node.UnmarshalXML`: every start-element attribute
is recorded except one whose local name is `xmlns` (`attr.Name.Local != "xmlns"`
in the Go source), i.e. a default namespace declaration. -/
def nodeAttrFilter (attrs : List Attr) : List Attr :=
  attrs.filter (fun a => a.Name.Local ≠ "xmlns")

/-- Interior scan shared by every `DecodeElement` call that targets a
`Node` (directly or through the `xml:",any"` child field).  Given the
tokens following a start element, it consumes tokens up to and including
the matching end element and returns the decoded child `Node`s in document
order, the interior tokens (for the `innerxml` capture), and the remaining
stream.  A child start element is decoded exactly as `Node.UnmarshalXML`
does: attributes filtered by `nodeAttrFilter`, `Content` set to the raw
interior, children decoded recursively.  `none` models the stream error Go
would propagate on premature end of input (fuel exhaustion only occurs on
streams Go would reject). -/
def nodeInterior : Nat → List Token → Option (List Node × List Token × List Token)
  | 0, _ => none
  | _ + 1, [] => none
  | _ + 1, Token.endElement _ :: ts => some ([], [], ts)
  | fuel + 1, Token.charData s :: ts =>
    match nodeInterior fuel ts with
    | some (ns, inner, rest) => some (ns, Token.charData s :: inner, rest)
    | none => none
  | fuel + 1, Token.startElement nm attrs :: ts =>
    match nodeInterior fuel ts with
    | some (gchildren, childInner, rest1) =>
      match nodeInterior fuel rest1 with
      | some (siblings, inner, rest2) =>
        some ((⟨nm, nodeAttrFilter attrs, renderTokens childInner, gchildren⟩ : Node) :: siblings,
              Token.startElement nm attrs :: (childInner ++ Token.endElement nm :: inner),
              rest2)
      | none => none
    | none => none

/-- Decode one element whose start tag `(nm, attrs)` has already been read
into a `Node`, mirroring `Node.UnmarshalXML`: record the filtered
attributes, then let the default unmarshaler fill `XMLName`, `Content`
(raw interior) and `Nodes` (every child element, in order). -/
def decodeNodeFrom (fuel : Nat) (nm : XmlName) (attrs : List Attr) (ts : List Token) :
    Option (Node × List Token) :=
  match nodeInterior fuel ts with
  | some (children, inner, rest) =>
    some ((⟨nm, nodeAttrFilter attrs, renderTokens inner, children⟩ : Node), rest)
  | none => none

/-- Entry point for `Node.UnmarshalXML` given the element's start tag and
the following tokens. -/
def Node.UnmarshalXML (nm : XmlName) (attrs : List Attr) (ts : List Token) :
    Option (Node × List Token) :=
  decodeNodeFrom (ts.length + 1) nm attrs ts

mutual

/-- Re-serialization of a `Node`, mirroring `Node.MarshalXML`: the start
tag uses the recorded name and attributes (whatever start element the
encoder suggested is overwritten), then only the child-node list is
replayed — the recorded raw text `Content` is never emitted — and finally
the end tag. -/
def Node.MarshalXML : Node → List Token
  | ⟨nm, attrs, _content, nodes⟩ =>
    Token.startElement nm attrs :: (marshalNodes nodes ++ [Token.endElement nm])

/-- Token stream of `e.EncodeElement(n.Nodes, ...)`: each child `Node` of
the slice is emitted through its own `MarshalXML`, in order; an empty
slice emits nothing. -/
def marshalNodes : List Node → List Token
  | [] => []
  | n :: ns => Node.MarshalXML n ++ marshalNodes ns

end

/-- XMPP stanza error, Go's `xmpp.Err`.  The Go field `Type` is renamed
`Type'` because `Type` is a Lean keyword; `Code` is Go's `int`. -/
structure Err where
  XMLName : XmlName
  Code : Int
  Type' : String
  Reason : String
  Text : String
deriving DecidableEq, Repr

/-- Zero value of `Err`, the state of a freshly allocated target of
`DecodeElement`. -/
def errZero : Err := ⟨⟨"", ""⟩, 0, "", "", ""⟩

/-- Stanza-error namespace used by `Err`'s codec. -/
def stanzasNS : String := "urn:ietf:params:xml:ns:xmpp-stanzas"

/-- One step of the attribute loop of `Err.UnmarshalXML`: an attribute
whose local name is `type` sets `Type'`; one whose local name is `code`
sets `Code` when `strconv.Atoi` succeeds on its value, and is ignored
(leaving `Code` untouched) when the value is malformed. -/
def errReadAttr (x : Err) (a : Attr) : Err :=
  let x1 := if a.Name.Local = "type" then { x with Type' := a.Value } else x
  if a.Name.Local = "code" then
    match atoi? a.Value with
    | some code => { x1 with Code := code }
    | none => x1
  else x1

/-- Attribute pass of `Err.UnmarshalXML`: fold `errReadAttr` over the
start-tag attributes in order. -/
def errReadAttrs (x : Err) (attrs : List Attr) : Err :=
  attrs.foldl errReadAttr x

/-- Subtree walk of `Err.UnmarshalXML`: each child element is decoded into
a generic `Node`; a child named `text` in the stanza namespace sets `Text`
to its raw content, any other child in the stanza namespace sets `Reason`
to its local name; character data is skipped; an end element equal to the
start tag's matching end returns, any other end element is skipped. -/
def errLoop : Nat → Err → XmlName → List Token → Option (Err × List Token)
  | 0, _, _, _ => none
  | _ + 1, _, _, [] => none
  | fuel + 1, x, startName, Token.startElement nm attrs :: ts =>
    match decodeNodeFrom fuel nm attrs ts with
    | some (elt, rest) =>
      let textName : XmlName := ⟨stanzasNS, "text"⟩
      let x' :=
        if elt.XMLName = textName then { x with Text := elt.Content }
        else if elt.XMLName.Space = stanzasNS then { x with Reason := elt.XMLName.Local }
        else x
      errLoop fuel x' startName rest
    | none => none
  | fuel + 1, x, startName, Token.endElement nm :: ts =>
    if nm = startName then some (x, ts) else errLoop fuel x startName ts
  | fuel + 1, x, startName, Token.charData _ :: ts => errLoop fuel x startName ts

/-- `Err.UnmarshalXML` on a freshly allocated `Err`, given the element's
start tag and the following tokens: record the start name, read the
attributes, then walk the subtree. -/
def Err.UnmarshalXML (nm : XmlName) (attrs : List Attr) (ts : List Token) :
    Option (Err × List Token) :=
  let x0 := errReadAttrs { errZero with XMLName := nm } attrs
  errLoop (ts.length + 1) x0 nm ts

/-- `Err.MarshalXML`: emits nothing at all when `Code = 0`; otherwise
renames the start element to `error` (empty namespace), appends the `code`
attribute (and a `type` attribute when `Type'` is non-empty) to the
encoder-supplied attributes, then emits an empty namespaced `Reason` child
when `Reason` is non-empty, a namespaced `text` child carrying `Text` when
`Text` is non-empty, and the end tag. -/
def Err.MarshalXML (x : Err) (startAttrs : List Attr) : List Token :=
  if x.Code = 0 then []
  else
    let nm : XmlName := ⟨"", "error"⟩
    let attrs1 := startAttrs ++ [⟨⟨"", "code"⟩, itoa x.Code⟩]
    let attrs2 := if x.Type'.length > 0 then attrs1 ++ [⟨⟨"", "type"⟩, x.Type'⟩] else attrs1
    let reasonToks : List Token :=
      if x.Reason ≠ "" then
        [Token.startElement ⟨stanzasNS, x.Reason⟩ [], Token.endElement ⟨stanzasNS, x.Reason⟩]
      else []
    let textToks : List Token :=
      if x.Text ≠ "" then
        [Token.startElement ⟨stanzasNS, "text"⟩ [], Token.charData x.Text,
         Token.endElement ⟨stanzasNS, "text"⟩]
      else []
    Token.startElement nm attrs2 :: (reasonToks ++ textToks ++ [Token.endElement nm])

/-- Registered payload variants.  `DiscoInfo` and `DiscoItems` are defined
in `iq.go`; `BindBind` and `iot.ControlSet` live in files outside the
provided sources.  Modelled from the spec: the spec's known-variant list
and pre-registered payload table name exactly these four registered
variants. -/
inductive PayloadKind where
  | discoInfo
  | discoItems
  | bindBind
  | controlSet
deriving DecidableEq, Repr

/-- Payload marker capability, Go's `IQPayload` type assertion.  Modelled
from the spec for the variants outside the provided sources: every known
variant (and `*Node`) satisfies the `IsIQPayload` marker, so the
`elt.(IQPayload)` assertion in `IQ.UnmarshalXML` always succeeds. -/
def isIQPayloadKind : PayloadKind → Bool := fun _ => true

/-- Decoded IQ payload: either a typed registered variant or the generic
`Node` fallback.  The field-level decoding of the typed variants is not
modelled (no claim depends on their contents, only on which variant the
registry dispatch selects); their decode still consumes the element's
whole subtree, as `DecodeElement` does. -/
inductive IQPayload where
  | node (n : Node)
  | typed (k : PayloadKind)

/-- The process-wide `typeRegistry` populated by `init()` in `iq.go`,
keyed by `Name.Space ++ " " ++ Name.Local`. -/
def typeRegistry : List (String × PayloadKind) :=
  [("http://jabber.org/protocol/disco#info query", PayloadKind.discoInfo),
   ("http://jabber.org/protocol/disco#items query", PayloadKind.discoItems),
   ("urn:ietf:params:xml:ns:xmpp-bind bind", PayloadKind.bindBind),
   ("urn:xmpp:iot:control set", PayloadKind.controlSet)]

/-- Payload resolution and decode for one first-level child of an `iq`
element, mirroring the body of the `level <= 1` branch of
`IQ.UnmarshalXML`: look the child's qualified name up in `typeRegistry`;
on a hit, construct the registered variant and decode the element into it
(consuming its subtree); on a miss, decode the element into a generic
`Node`.  Both `*Node` and every registered variant satisfy the
`IQPayload` assertion, so a successfully decoded element always yields a
payload. -/
def decodePayloadElement (fuel : Nat) (nm : XmlName) (attrs : List Attr) (ts : List Token) :
    Option (IQPayload × List Token) :=
  let payloadType := nm.Space ++ " " ++ nm.Local
  match typeRegistry.lookup payloadType with
  | some k =>
    if isIQPayloadKind k then
      match nodeInterior fuel ts with
      | some (_, _, rest) => some (IQPayload.typed k, rest)
      | none => none
    else none
  | none =>
    match decodeNodeFrom fuel nm attrs ts with
    | some (n, rest) => some (IQPayload.node n, rest)
    | none => none

/-- IQ stanza, Go's `xmpp.IQ`.  The embedded `PacketAttrs` struct is
defined outside the provided sources; modelled from the spec, which lists
its fields as Id, From, To, Type, Lang (exactly the attributes
`IQ.UnmarshalXML` reads).  The Go field `Type` is renamed `Type'` because
`Type` is a Lean keyword. -/
structure IQ where
  XMLName : XmlName
  Id : String
  From : String
  To : String
  Type' : String
  Lang : String
  Payload : List IQPayload
  RawXML : String
  Error : Err

/-- Zero value of `IQ`, the state of a freshly allocated target of
`DecodeElement`. -/
def iqZero : IQ := ⟨⟨"", ""⟩, "", "", "", "", "", [], "", errZero⟩

/-- `NewIQ`: builds an empty envelope with the given attributes, no
payloads and no error. -/
def NewIQ (iqtype from_ to_ id lang : String) : IQ :=
  { iqZero with XMLName := ⟨"", "iq"⟩, Id := id, From := from_, To := to_,
                Type' := iqtype, Lang := lang }

/-- `IQ.AddPayload`: append one payload to the ordered payload list. -/
def IQ.AddPayload (iq : IQ) (payload : IQPayload) : IQ :=
  { iq with Payload := iq.Payload ++ [payload] }

/-- `IQ.MakeError`: value receiver, so the original is untouched; the
result swaps From and To, forces the type to `error` and attaches the
supplied stanza error, every other field (including the payload list)
kept as-is. -/
def IQ.MakeError (iq : IQ) (xerror : Err) : IQ :=
  { iq with Type' := "error", From := iq.To, To := iq.From, Error := xerror }

/-- Attribute pass of `IQ.UnmarshalXML`: attributes with local names `id`,
`type`, `to`, `from`, `lang` set the corresponding fields, in order. -/
def iqReadAttrs (iq : IQ) (attrs : List Attr) : IQ :=
  attrs.foldl
    (fun iq a =>
      let iq := if a.Name.Local = "id" then { iq with Id := a.Value } else iq
      let iq := if a.Name.Local = "type" then { iq with Type' := a.Value } else iq
      let iq := if a.Name.Local = "to" then { iq with To := a.Value } else iq
      let iq := if a.Name.Local = "from" then { iq with From := a.Value } else iq
      if a.Name.Local = "lang" then { iq with Lang := a.Value } else iq)
    iq

/-- Inner-element loop of `IQ.UnmarshalXML`, with its `level` counter
(`int` in Go, so modelled as `Int`): on a start element the counter is
incremented and, while it is at most 1, the child is resolved through the
registry and decoded (consuming its subtree, end tag included — so the
counter is never decremented for a decoded child); on an end element the
counter is decremented and the loop returns when the token equals the root
start tag's matching end; character data is skipped. -/
def iqLoop : Nat → IQ → Int → XmlName → List Token → Option (IQ × List Token)
  | 0, _, _, _, _ => none
  | _ + 1, _, _, _, [] => none
  | fuel + 1, iq, level, startName, Token.startElement nm attrs :: ts =>
    let level' := level + 1
    if level' ≤ 1 then
      match decodePayloadElement fuel nm attrs ts with
      | some (p, rest) =>
        iqLoop fuel { iq with Payload := iq.Payload ++ [p] } level' startName rest
      | none => none
    else iqLoop fuel iq level' startName ts
  | fuel + 1, iq, level, startName, Token.endElement nm :: ts =>
    let level' := level - 1
    if nm = startName then some (iq, ts) else iqLoop fuel iq level' startName ts
  | fuel + 1, iq, level, startName, Token.charData _ :: ts =>
    iqLoop fuel iq level startName ts

/-- `IQ.UnmarshalXML` on a freshly allocated `IQ`, given the root `iq`
start tag and the following tokens: record the root name, read the
attributes, then run the inner-element loop from level 0.  The `Error`
and `RawXML` fields are never assigned by this method and keep their zero
values. -/
def IQ.UnmarshalXML (nm : XmlName) (attrs : List Attr) (ts : List Token) :
    Option (IQ × List Token) :=
  let iq0 := iqReadAttrs { iqZero with XMLName := nm } attrs
  iqLoop (ts.length + 1) iq0 0 nm ts

/-- Composition decode-after-encode for the stanza error codec: encode `e`
with an encoder-supplied start element carrying no attributes (as
`xml.Marshal` would supply for a fresh value), then decode the resulting
token stream with `Err.UnmarshalXML`. -/
def errRoundTrip (e : Err) : Option Err :=
  match e.MarshalXML [] with
  | Token.startElement nm attrs :: ts => (Err.UnmarshalXML nm attrs ts).map Prod.fst
  | _ => none

/-- Root name of an `iq` element as delivered in the token model. -/
def iqName : XmlName := ⟨"", "iq"⟩

/-- Name of a stanza `error` element in the empty namespace. -/
def errName : XmlName := ⟨"", "error"⟩

/-- Interior tokens of `<iq><query xmlns="disco#info"/><query xmlns="disco#items"/></iq>`:
two first-level child elements, both with registered qualified names. -/
def twoChildToks : List Token :=
  [Token.startElement ⟨"http://jabber.org/protocol/disco#info", "query"⟩ [],
   Token.endElement ⟨"http://jabber.org/protocol/disco#info", "query"⟩,
   Token.startElement ⟨"http://jabber.org/protocol/disco#items", "query"⟩ [],
   Token.endElement ⟨"http://jabber.org/protocol/disco#items", "query"⟩,
   Token.endElement iqName]

/-- Attributes of the spec's Scenario B root element
`<iq type="error" id="2">`. -/
def scenarioBAttrs : List Attr := [⟨⟨"", "type"⟩, "error"⟩, ⟨⟨"", "id"⟩, "2"⟩]

/-- Attributes of the Scenario B error element `<error code="404" type="cancel">`. -/
def scenarioBErrAttrs : List Attr := [⟨⟨"", "code"⟩, "404"⟩, ⟨⟨"", "type"⟩, "cancel"⟩]

/-- Interior tokens of the Scenario B error element:
`<item-not-found xmlns="urn:ietf:params:xml:ns:xmpp-stanzas"/>` then the
closing `</error>` tag. -/
def scenarioBErrToks : List Token :=
  [Token.startElement ⟨stanzasNS, "item-not-found"⟩ [⟨⟨"", "xmlns"⟩, stanzasNS⟩],
   Token.endElement ⟨stanzasNS, "item-not-found"⟩,
   Token.endElement errName]

/-- Interior tokens of the whole Scenario B `iq` element. -/
def scenarioBToks : List Token :=
  Token.startElement errName scenarioBErrAttrs :: scenarioBErrToks ++ [Token.endElement iqName]

end Xmpp

namespace Xmpp

theorem digitVal?_digitChar (d : Nat) (hd : d < 10) : digitVal? (digitChar d) = some d := by
  interval_cases d <;> decide

theorem digitsValAux_append (xs ys : List Char) :
    ∀ acc, digitsValAux acc (xs ++ ys) = (digitsValAux acc xs).bind (fun m => digitsValAux m ys) := by
  induction xs with
  | nil => intro acc; simp [digitsValAux]
  | cons c cs ih =>
    intro acc
    simp only [List.cons_append, digitsValAux]
    cases digitVal? c with
    | some d => exact ih _
    | none => rfl

theorem digitsValAux_natDigits (n : Nat) :
    ∀ acc, digitsValAux acc (natDigits n) = some (acc * 10 ^ (natDigits n).length + n) := by
  induction n using Nat.strong_induction_on with
  | _ n ih =>
    intro acc
    by_cases h : n < 10
    · rw [natDigits, dif_pos h]
      rw [show (digitsValAux acc [digitChar n] : Option Nat) = some (acc * 10 + n) by
        simp [digitsValAux, digitVal?_digitChar n h]]
      simp
    · rw [natDigits, dif_neg h]
      rw [digitsValAux_append]
      rw [ih (n / 10) (Nat.div_lt_self (by omega) (by omega))]
      simp only [Option.some_bind]
      rw [show (digitsValAux (acc * 10 ^ (natDigits (n / 10)).length + n / 10)
            [digitChar (n % 10)] : Option Nat)
          = some ((acc * 10 ^ (natDigits (n / 10)).length + n / 10) * 10 + n % 10) by
        simp [digitsValAux, digitVal?_digitChar (n % 10) (Nat.mod_lt _ (by omega))]]
      rw [List.length_append, List.length_singleton, pow_succ]
      congr 1
      have h10 : n / 10 * 10 + n % 10 = n := by omega
      calc (acc * 10 ^ (natDigits (n / 10)).length + n / 10) * 10 + n % 10
          = acc * (10 ^ (natDigits (n / 10)).length * 10) + (n / 10 * 10 + n % 10) := by ring
        _ = acc * (10 ^ (natDigits (n / 10)).length * 10) + n := by rw [h10]

theorem natDigits_ne_nil (n : Nat) : natDigits n ≠ [] := by
  rw [natDigits]
  split <;> simp

theorem digitsVal?_natDigits (n : Nat) : digitsVal? (natDigits n) = some n := by
  rw [digitsVal?, if_neg (by simp [natDigits_ne_nil n])]
  rw [digitsValAux_natDigits n 0]
  simp

theorem natDigits_head (n : Nat) : ∃ d ds, natDigits n = digitChar d :: ds ∧ d < 10 := by
  induction n using Nat.strong_induction_on with
  | _ n ih =>
    by_cases h : n < 10
    · exact ⟨n, [], by rw [natDigits, dif_pos h], h⟩
    · obtain ⟨d, ds, hds, hd⟩ := ih (n / 10) (Nat.div_lt_self (by omega) (by omega))
      exact ⟨d, ds ++ [digitChar (n % 10)], by rw [natDigits, dif_neg h, hds]; simp, hd⟩

theorem digitChar_ne_sign (d : Nat) (hd : d < 10) : digitChar d ≠ '+' ∧ digitChar d ≠ '-' := by
  interval_cases d <;> exact ⟨by decide, by decide⟩

theorem toList_mk (l : List Char) : (String.mk l).toList = l := rfl

theorem toList_dash_mk (l : List Char) : ("-" ++ String.mk l).toList = '-' :: l := rfl

/-- Round-trip of the integer codec: `strconv.Atoi` parses back exactly
what `strconv.Itoa` printed. -/
theorem atoi?_itoa (i : Int) : atoi? (itoa i) = some i := by
  rw [itoa]
  by_cases h : i < 0
  · rw [if_pos h]
    simp [atoi?, toList_dash_mk, digitsVal?_natDigits]
    rw [abs_of_nonpos (le_of_lt h), neg_neg]
  · rw [if_neg h]
    obtain ⟨d, ds, hds, hd⟩ := natDigits_head i.toNat
    obtain ⟨h1, h2⟩ := digitChar_ne_sign d hd
    simp [atoi?, toList_mk, hds, if_neg h1, if_neg h2]
    rw [← hds, digitsVal?_natDigits]
    exact ⟨i.toNat, rfl, by omega⟩

/-- Claim C1: the claim says IQ decode appends exactly one payload per
first-level child, in document order.  The code violates this: decoding
an `iq` element whose interior holds two first-level children (both with
registered names) yields a payload list with a single entry — only the
first child's payload.  `DecodeElement` consumes each decoded child's end
tag, so the loop's `level` counter never returns to 0 and every later
first-level child is seen at level 2 and skipped. -/
theorem C1_secondChildSkipped :
    (IQ.UnmarshalXML iqName [] twoChildToks).map (fun p => p.1.Payload)
      = some [IQPayload.typed PayloadKind.discoInfo] := rfl

/-- Claim C2: the claim says decoding Scenario B yields an IQ whose stanza
error has Code 404, Type cancel, Reason item-not-found.  The code
violates this: `IQ.UnmarshalXML` never assigns the `Error` field, so the
decoded IQ's error keeps its zero value (Code 0, empty Reason), and the
`error` child is decoded as a generic `Node` payload instead.
`Err.UnmarshalXML`, applied directly to the same error element, does
produce Code 404, Type cancel, Reason item-not-found, empty Text — but
the IQ decode path never invokes it. -/
theorem C2_errorFieldNotPopulated :
    (IQ.UnmarshalXML iqName scenarioBAttrs scenarioBToks).map
        (fun p => (p.1.Type', p.1.Id, p.1.Error.Code, p.1.Error.Type', p.1.Error.Reason,
                   p.1.Payload.length))
      = some ("error", "2", 0, "", "", 1)
    ∧ (Err.UnmarshalXML errName scenarioBErrAttrs scenarioBErrToks).map
        (fun p => (p.1.Code, p.1.Type', p.1.Reason, p.1.Text))
      = some (404, "cancel", "item-not-found", "") :=
  ⟨rfl, rfl⟩

/-- Claim C6: `IQ.MakeError` swaps From and To, forces the type to `error`,
attaches the supplied stanza error, and keeps the payload list unchanged. -/
theorem C6_MakeError_fields (iq : IQ) (e : Err) :
    (iq.MakeError e).From = iq.To ∧ (iq.MakeError e).To = iq.From
    ∧ (iq.MakeError e).Type' = "error" ∧ (iq.MakeError e).Error = e
    ∧ (iq.MakeError e).Payload = iq.Payload :=
  ⟨rfl, rfl, rfl, rfl, rfl⟩

/-- Claim C10: `IQ.MakeError` has a value receiver, so the original IQ value is
untouched (the embedding is a pure function of the input); in the result,
every field other than Type, From, To and Error — in particular Id, Lang
and RawXML, and also XMLName and Payload — equals the input's field. -/
theorem C10_MakeError_frame (iq : IQ) (e : Err) :
    (iq.MakeError e).Id = iq.Id ∧ (iq.MakeError e).Lang = iq.Lang
    ∧ (iq.MakeError e).RawXML = iq.RawXML ∧ (iq.MakeError e).XMLName = iq.XMLName
    ∧ (iq.MakeError e).Payload = iq.Payload :=
  ⟨rfl, rfl, rfl, rfl, rfl⟩

end Xmpp

namespace Xmpp

/-- Claim C3: whenever the first-level-child dispatch of `IQ.UnmarshalXML`
produces a payload, a qualified name registered in `typeRegistry` yields
the registered variant (never a `Node`), and an unregistered qualified
name yields a generic `Node`. -/
theorem C3_registryDispatch (fuel : Nat) (nm : XmlName) (attrs : List Attr)
    (ts : List Token) (p : IQPayload) (rest : List Token)
    (h : decodePayloadElement fuel nm attrs ts = some (p, rest)) :
    (∀ k, List.lookup (nm.Space ++ " " ++ nm.Local) typeRegistry = some k →
        p = IQPayload.typed k)
    ∧ (List.lookup (nm.Space ++ " " ++ nm.Local) typeRegistry = none →
        ∃ n : Node, p = IQPayload.node n) := by
  simp only [decodePayloadElement] at h
  cases hl : List.lookup (nm.Space ++ " " ++ nm.Local) typeRegistry with
  | some k =>
    rw [hl] at h
    simp only [isIQPayloadKind, if_true] at h
    cases hni : nodeInterior fuel ts with
    | none => rw [hni] at h; exact absurd h (by simp)
    | some v =>
      obtain ⟨a, b, c⟩ := v
      rw [hni] at h
      simp only [Option.some.injEq, Prod.mk.injEq] at h
      constructor
      · intro k' hk'
        cases hk'
        exact h.1.symm
      · intro hn
        exact Option.noConfusion hn
  | none =>
    rw [hl] at h
    cases hd : decodeNodeFrom fuel nm attrs ts with
    | none => rw [hd] at h; exact absurd h (by simp)
    | some v =>
      obtain ⟨n, r⟩ := v
      rw [hd] at h
      simp only [Option.some.injEq, Prod.mk.injEq] at h
      constructor
      · intro k' hk'
        exact Option.noConfusion hk'
      · intro _
        exact ⟨n, h.1.symm⟩

/-- Witness for C3: a registered name (`disco#info query`) decodes to its
registered variant, and an unregistered name decodes to a `Node`. -/
theorem C3_witness :
    IQPayload.typed PayloadKind.discoInfo = IQPayload.typed PayloadKind.discoInfo
    ∧ ∃ n : Node, IQPayload.node (⟨⟨"urn:x", "y"⟩, [], "", []⟩ : Node) = IQPayload.node n :=
  ⟨(C3_registryDispatch 2 ⟨"http://jabber.org/protocol/disco#info", "query"⟩ []
      [Token.endElement ⟨"http://jabber.org/protocol/disco#info", "query"⟩]
      (IQPayload.typed PayloadKind.discoInfo) [] rfl).1 PayloadKind.discoInfo rfl,
   (C3_registryDispatch 2 ⟨"urn:x", "y"⟩ [] [Token.endElement ⟨"urn:x", "y"⟩]
      (IQPayload.node ⟨⟨"urn:x", "y"⟩, [], "", []⟩) [] rfl).2 rfl⟩

/-- Claim C4: `Err.MarshalXML` emits no tokens at all when `Code = 0`, and for
`Code ≠ 0` it emits the `error` start element whose attribute list
carries the `code` attribute with the printed code value. -/
theorem C4_marshalIffCode (x : Err) (startAttrs : List Attr) :
    (x.Code = 0 → x.MarshalXML startAttrs = [])
    ∧ (x.Code ≠ 0 →
        ∃ attrs rest, x.MarshalXML startAttrs = Token.startElement ⟨"", "error"⟩ attrs :: rest
          ∧ (⟨⟨"", "code"⟩, itoa x.Code⟩ : Attr) ∈ attrs) := by
  constructor
  · intro h0
    simp [Err.MarshalXML, h0]
  · intro hne
    simp only [Err.MarshalXML, if_neg hne]
    refine ⟨_, _, rfl, ?_⟩
    by_cases ht : x.Type'.length > 0 <;> simp [ht]

/-- Witness for C4: at `Code = 0` nothing is emitted; at `Code = 5` the
`error` start element carries the `code` attribute. -/
theorem C4_witness :
    (Err.MarshalXML ⟨⟨"", ""⟩, 0, "", "", ""⟩ [] = [])
    ∧ ∃ attrs rest,
        Err.MarshalXML ⟨⟨"", ""⟩, 5, "cancel", "", ""⟩ []
          = Token.startElement ⟨"", "error"⟩ attrs :: rest
        ∧ (⟨⟨"", "code"⟩, itoa (5 : Int)⟩ : Attr) ∈ attrs :=
  ⟨(C4_marshalIffCode ⟨⟨"", ""⟩, 0, "", "", ""⟩ []).1 rfl,
   (C4_marshalIffCode ⟨⟨"", ""⟩, 5, "cancel", "", ""⟩ []).2 (by decide)⟩

/-- Claim C7 counterexample: the claim says the recorded attribute list excludes
any `xmlns` namespace declaration, but a prefixed namespace declaration
`xmlns:foo="urn:x"` (delivered by Go's decoder as `Space "xmlns", Local "foo"`)
is kept by the filter, which only drops attributes whose local name is
`xmlns`. -/
theorem C7_counterexample :
    (Node.UnmarshalXML ⟨"urn:x", "e"⟩ [⟨⟨"xmlns", "foo"⟩, "urn:x"⟩]
        [Token.endElement ⟨"urn:x", "e"⟩]).map (fun p => p.1.Attrs)
      = some [⟨⟨"xmlns", "foo"⟩, "urn:x"⟩] := rfl

/-- Claim C7 amended: for every element decoded into a `Node`, the recorded
`XMLName` is the input element's qualified name, and the recorded
attribute list is the input list with exactly the attributes whose local
name is `xmlns` (default namespace declarations) removed; prefixed
declarations such as `xmlns:foo` are retained. -/
theorem C7_nodeNameAndAttrs (nm : XmlName) (attrs : List Attr) (ts : List Token)
    (n : Node) (rest : List Token)
    (h : Node.UnmarshalXML nm attrs ts = some (n, rest)) :
    n.XMLName = nm ∧ n.Attrs = nodeAttrFilter attrs
    ∧ ∀ a : Attr, a ∈ n.Attrs ↔ (a ∈ attrs ∧ a.Name.Local ≠ "xmlns") := by
  unfold Node.UnmarshalXML decodeNodeFrom at h
  cases hni : nodeInterior (ts.length + 1) ts with
  | none => rw [hni] at h; exact absurd h (by simp)
  | some v =>
    obtain ⟨children, inner, rest'⟩ := v
    rw [hni] at h
    simp only [Option.some.injEq, Prod.mk.injEq] at h
    obtain ⟨hn, _⟩ := h
    subst hn
    refine ⟨rfl, rfl, ?_⟩
    intro a
    simp [nodeAttrFilter, List.mem_filter]

/-- Witness for C7's amended theorem: decoding `<e k="v" xmlns="urn:x"/>`
records the element name and keeps `k="v"` while dropping the default
namespace declaration. -/
theorem C7_witness :
    (⟨⟨"urn:x", "e"⟩, [⟨⟨"", "k"⟩, "v"⟩], "", []⟩ : Node).XMLName = ⟨"urn:x", "e"⟩
    ∧ (⟨⟨"urn:x", "e"⟩, [⟨⟨"", "k"⟩, "v"⟩], "", []⟩ : Node).Attrs
        = nodeAttrFilter [⟨⟨"", "k"⟩, "v"⟩, ⟨⟨"", "xmlns"⟩, "urn:x"⟩]
    ∧ ∀ a : Attr, a ∈ (⟨⟨"urn:x", "e"⟩, [⟨⟨"", "k"⟩, "v"⟩], "", []⟩ : Node).Attrs
        ↔ (a ∈ [⟨⟨"", "k"⟩, "v"⟩, ⟨⟨"", "xmlns"⟩, "urn:x"⟩] ∧ a.Name.Local ≠ "xmlns") :=
  C7_nodeNameAndAttrs ⟨"urn:x", "e"⟩ [⟨⟨"", "k"⟩, "v"⟩, ⟨⟨"", "xmlns"⟩, "urn:x"⟩]
    [Token.endElement ⟨"urn:x", "e"⟩] _ [] rfl

/-- Claim C8: re-encoding a `Node` with non-empty text `Content` and no child
nodes emits only the start and end tags — no character data at all — so
the text of a text-only element is lost. -/
theorem C8_textOnlyLost (n : Node) (hc : n.Content ≠ "") (hn : n.Nodes = []) :
    n.MarshalXML = [Token.startElement n.XMLName n.Attrs, Token.endElement n.XMLName]
    ∧ ∀ s, Token.charData s ∉ n.MarshalXML := by
  obtain ⟨nm, attrs, content, nodes⟩ := n
  simp only at hn
  subst hn
  constructor
  · simp [Node.MarshalXML, marshalNodes]
  · intro s
    simp [Node.MarshalXML, marshalNodes]

/-- Witness for C8: a node holding only the text `hello` re-encodes to a
bare start/end pair with no character data. -/
theorem C8_witness :
    (⟨⟨"u", "e"⟩, [], "hello", []⟩ : Node).MarshalXML
      = [Token.startElement ⟨"u", "e"⟩ [], Token.endElement ⟨"u", "e"⟩]
    ∧ ∀ s, Token.charData s ∉ (⟨⟨"u", "e"⟩, [], "hello", []⟩ : Node).MarshalXML :=
  C8_textOnlyLost ⟨⟨"u", "e"⟩, [], "hello", []⟩ (by decide) rfl

end Xmpp

namespace Xmpp

theorem errReadAttr_code (x : Err) (a : Attr)
    (hmal : a.Name.Local = "code" → atoi? a.Value = none) :
    (errReadAttr x a).Code = x.Code := by
  by_cases hc : a.Name.Local = "code"
  · simp [errReadAttr, hc, hmal hc]
  · by_cases htp : a.Name.Local = "type" <;> simp [errReadAttr, hc, htp]

theorem errReadAttrs_code (attrs : List Attr) :
    ∀ x : Err, (∀ a ∈ attrs, a.Name.Local = "code" → atoi? a.Value = none) →
      (errReadAttrs x attrs).Code = x.Code := by
  induction attrs with
  | nil => intro x _; rfl
  | cons a as ih =>
    intro x hmal
    rw [show errReadAttrs x (a :: as) = errReadAttrs (errReadAttr x a) as from rfl]
    rw [ih _ (fun b hb hbc => hmal b (List.mem_cons_of_mem a hb) hbc)]
    exact errReadAttr_code x a (hmal a (List.mem_cons_self a as))

theorem errLoop_code (fuel : Nat) :
    ∀ (x : Err) (nm : XmlName) (ts : List Token) (r : Err) (rest : List Token),
      errLoop fuel x nm ts = some (r, rest) → r.Code = x.Code := by
  induction fuel with
  | zero =>
    intro x nm ts r rest h
    exact absurd h (by simp [errLoop])
  | succ fuel ih =>
    intro x nm ts r rest h
    cases ts with
    | nil => exact absurd h (by simp [errLoop])
    | cons t ts' =>
      cases t with
      | startElement nm' attrs =>
        simp only [errLoop] at h
        cases hd : decodeNodeFrom fuel nm' attrs ts' with
        | none => rw [hd] at h; exact absurd h (by simp)
        | some v =>
          obtain ⟨elt, rest'⟩ := v
          rw [hd] at h
          rw [ih _ nm rest' r rest h]
          by_cases h1 : elt.XMLName = (⟨stanzasNS, "text"⟩ : XmlName)
          · simp [h1]
          · by_cases h2 : elt.XMLName.Space = stanzasNS <;> simp [h1, h2]
      | endElement nm' =>
        simp only [errLoop] at h
        by_cases he : nm' = nm
        · rw [if_pos he] at h
          cases h
          rfl
        · rw [if_neg he] at h
          exact ih _ _ _ _ _ h
      | charData s =>
        simp only [errLoop] at h
        exact ih _ _ _ _ _ h

/-- Claim C9: when `Err.UnmarshalXML` meets a `code` attribute whose value is
not a well-formed integer, the value is ignored: whenever every `code`
attribute of the element is malformed and the decode returns a result
(no error is raised by the attribute pass itself), the resulting `Code`
stays at its zero default. -/
theorem C9_malformedCodeIgnored (nm : XmlName) (attrs : List Attr) (ts : List Token)
    (r : Err) (rest : List Token)
    (hmal : ∀ a ∈ attrs, a.Name.Local = "code" → atoi? a.Value = none)
    (h : Err.UnmarshalXML nm attrs ts = some (r, rest)) :
    r.Code = 0 := by
  simp only [Err.UnmarshalXML] at h
  rw [errLoop_code _ _ _ _ _ _ h]
  exact errReadAttrs_code attrs _ hmal

/-- Witness for C9: decoding `<error code="abc"/>` succeeds and leaves
`Code` at 0. -/
theorem C9_witness : (⟨⟨"", "error"⟩, 0, "", "", ""⟩ : Err).Code = 0 :=
  C9_malformedCodeIgnored ⟨"", "error"⟩ [⟨⟨"", "code"⟩, "abc"⟩]
    [Token.endElement ⟨"", "error"⟩] ⟨⟨"", "error"⟩, 0, "", "", ""⟩ []
    (by decide) rfl

/-- Claim C5 counterexample: the claim fails at
`e = (Code 1, Type "cancel", Reason "text", Text "a<b")`.  Encoding emits
the reason as an empty stanza-namespace `text` element, which decode then
treats as the Text carrier (so Reason comes back empty), and the `text`
child's content is captured as raw `innerxml` bytes, so Text comes back
in its escaped form `a&lt;b`.  Both Reason and Text differ from the
original, refuting exact preservation. -/
theorem C5_counterexample :
    (errRoundTrip ⟨⟨"", ""⟩, 1, "cancel", "text", "a<b"⟩).map
        (fun r => (r.Code, r.Type', r.Reason, r.Text))
      = some (1, "cancel", "", "a&lt;b")
    ∧ (("", "a&lt;b") : String × String) ≠ ("text", "a<b") := by
  constructor
  · simp [errRoundTrip, Err.MarshalXML, Err.UnmarshalXML, errReadAttrs, errReadAttr, errLoop,
          decodeNodeFrom, nodeInterior, nodeAttrFilter, renderTokens, renderToken, errZero,
          atoi?, itoa, natDigits, digitChar, digitsVal?, digitsValAux, digitVal?,
          escapeStr, escChar]
    decide
  · decide

/-- Claim C5 amended: for every `Err` with `Code ≠ 0` whose `Reason` is not the
reserved local name `text` and whose `Text` is unchanged by XML escaping,
decoding the output of encoding it preserves Code, Type, Reason and Text
exactly. -/
theorem C5_roundtripAmended (e : Err) (hc : e.Code ≠ 0) (hr : e.Reason ≠ "text")
    (ht : escapeStr e.Text = e.Text) :
    (errRoundTrip e).map (fun r => (r.Code, r.Type', r.Reason, r.Text))
      = some (e.Code, e.Type', e.Reason, e.Text) := by
  by_cases hty : e.Type'.length > 0
  · by_cases hre : e.Reason = "" <;> by_cases hte : e.Text = "" <;>
      simp [errRoundTrip, Err.MarshalXML, hc, hty, hre, hte, Err.UnmarshalXML, errReadAttrs,
            errReadAttr, errLoop, decodeNodeFrom, nodeInterior, nodeAttrFilter, renderTokens,
            renderToken, atoi?_itoa, errZero, hr, ht]
  · have hty0 : e.Type' = "" := by
      cases he : e.Type' with
      | mk l =>
        cases l with
        | nil => rfl
        | cons c cs => rw [he] at hty; exact absurd (by simp [String.length]) hty
    by_cases hre : e.Reason = "" <;> by_cases hte : e.Text = "" <;>
      simp [errRoundTrip, Err.MarshalXML, hc, hty0, hre, hte, Err.UnmarshalXML, errReadAttrs,
            errReadAttr, errLoop, decodeNodeFrom, nodeInterior, nodeAttrFilter, renderTokens,
            renderToken, atoi?_itoa, errZero, hr, ht]

/-- Witness for C5's amended round-trip at a concrete stanza error. -/
theorem C5_witness :
    (errRoundTrip ⟨⟨"", ""⟩, 404, "modify", "bad-request", "oops"⟩).map
        (fun r => (r.Code, r.Type', r.Reason, r.Text))
      = some (404, "modify", "bad-request", "oops") :=
  C5_roundtripAmended ⟨⟨"", ""⟩, 404, "modify", "bad-request", "oops"⟩
    (by decide) (by decide) rfl

end Xmpp
